import Mathlib

/-!
# Verification of the image-processing pipeline (cpp-imageprocessing)

Shallow embedding of the three program variants:

* `imageprocessing.cpp` — single-pass URL harvester, hardcoded count 2,
  `downloadImage` returns a `bool`, the driver skips grayscale conversion
  when a download fails;
* `unnamed/part_000` and `unnamed/part_001` — looping harvester
  (`while (image_urls.size() < (size_t)numimages)`), count taken from
  `atoi(argv[1])`, `downloadImage` calls `exit(1)` on curl-init or fopen
  failure, and the driver converts unconditionally after each download call.

Network interactions (the Gemini generate/extract calls, the liveness
probe, the download transfer) are modelled by oracles supplying the
observable result of each call, and the side effects of a run are recorded
as a trace of `Act` events.  Strings are handled through their character
lists so that all definitions compute.
-/

/-- C `(size_t)` cast applied to a C `int` value: reduction modulo `2^64`
(`size_t` is 64-bit on the target platform). -/
def sizeTOfInt (n : Int) : Nat := (n % (2:Int) ^ 64).toNat

/-- Characters of a stream up to (excluding) the first newline; this is the
observable effect of `std::getline(stream, s)` on the first line. -/
def takeUntilNl : List Char → List Char
  | [] => []
  | c :: t => if c = '\n' then [] else c :: takeUntilNl t

/-- First line of a file or string, as read by one `std::getline` call
(`main` reads the API key this way: the trailing newline is consumed and
not part of the result, everything before it is kept verbatim). -/
def readFirstLine (s : String) : String := String.mk (takeUntilNl s.data)

/-- Accumulator-based splitting of a character stream into lines,
mirroring a `while (std::getline(iss, line))` loop: each `\n` ends a line,
a final segment is a line only if it is nonempty (getline fails at EOF
with nothing read). -/
def getlinesAux : List Char → List Char → List String
  | [], cur => if cur.isEmpty then [] else [String.mk cur.reverse]
  | c :: t, cur =>
    if c = '\n' then String.mk cur.reverse :: getlinesAux t []
    else getlinesAux t (c :: cur)

/-- The list of lines produced by repeated `std::getline` on a string. -/
def cppGetlines (s : String) : List String := getlinesAux s.data []

/-- `leadsWith p l` tests whether `p` occurs at the start of `l`
(the per-position comparison performed by `std::string::find`). -/
def leadsWith : List Char → List Char → Bool
  | [], _ => true
  | _ :: _, [] => false
  | p :: ps, c :: cs => p = c && leadsWith ps cs

/-- `hasSub pat l` is `line.find(pat) != std::string::npos`: does `pat`
occur as a contiguous substring of `l`? -/
def hasSub (pat : List Char) : List Char → Bool
  | [] => leadsWith pat []
  | c :: t => leadsWith pat (c :: t) || hasSub pat t

/-- The candidate-line filter of `generateImageUrls` (all variants):
`line.find("http") != std::string::npos`. -/
def lineHasHttp (l : String) : Bool := hasSub "http".data l.data

/-- Candidate URLs obtained from the extraction-phase text: split into
lines, keep the lines containing `"http"` (all variants share this code). -/
def candidateLines (urlsText : String) : List String :=
  (cppGetlines urlsText).filter lineHasHttp

/-- C-locale `isspace`, as used by `atoi`. -/
def isSpaceC (c : Char) : Bool := c.toNat = 32 || (9 ≤ c.toNat && c.toNat ≤ 13)

/-- Decimal-digit accumulation of `atoi`: consume leading digits, stop at
the first non-digit. -/
def digitsVal : List Char → Nat → Nat
  | [], acc => acc
  | c :: t, acc => if c.isDigit then digitsVal t (acc * 10 + (c.toNat - 48)) else acc

/-- `atoi` on a character list: skip C whitespace, one optional sign, then
leading digits; a string with no leading digits yields `0`.  (Overflow is
undefined behaviour in C and outside the inputs considered here.) -/
def atoiChars (l : List Char) : Int :=
  match l.dropWhile isSpaceC with
  | '-' :: t => -(digitsVal t 0 : Int)
  | '+' :: t => (digitsVal t 0 : Int)
  | t => (digitsVal t 0 : Int)

/-- `atoi(argv[1])` as called by the looping variants. -/
def cppAtoi (s : String) : Int := atoiChars s.data

section SubstringLemmas

/-- `leadsWith` decides occurrence-at-front: `p` starts `l` iff `l` is `p`
followed by some remainder. -/
theorem leadsWith_iff (p l : List Char) :
    leadsWith p l = true ↔ ∃ r, l = p ++ r := by
  induction p generalizing l with
  | nil => simp [leadsWith]
  | cons a ps ih =>
    cases l with
    | nil => simp [leadsWith]
    | cons c cs =>
      simp only [leadsWith, Bool.and_eq_true, decide_eq_true_eq, ih]
      constructor
      · rintro ⟨rfl, r, rfl⟩
        exact ⟨r, rfl⟩
      · rintro ⟨r, h⟩
        cases h
        exact ⟨rfl, r, rfl⟩

/-- `hasSub` decides substring containment: `pat` occurs in `l` iff `l`
splits as `s ++ pat ++ t`. -/
theorem hasSub_iff (pat l : List Char) :
    hasSub pat l = true ↔ ∃ s t, l = s ++ pat ++ t := by
  induction l with
  | nil =>
    simp only [hasSub, leadsWith_iff]
    constructor
    · rintro ⟨r, h⟩
      exact ⟨[], r, by simpa using h⟩
    · rintro ⟨s, t, h⟩
      have h' : s = [] ∧ pat = [] ∧ t = [] := by
        simpa using h.symm
      rcases h' with ⟨rfl, rfl, rfl⟩
      exact ⟨[], rfl⟩
  | cons c cs ih =>
    simp only [hasSub, Bool.or_eq_true, leadsWith_iff, ih]
    constructor
    · rintro (⟨r, h⟩ | ⟨s, t, h⟩)
      · exact ⟨[], r, by simpa using h⟩
      · exact ⟨c :: s, t, by simp [h]⟩
    · rintro ⟨s, t, h⟩
      cases s with
      | nil => exact Or.inl ⟨t, by simpa using h⟩
      | cons b bs =>
        right
        have h' : c = b ∧ cs = bs ++ pat ++ t := by
          simpa using h
        exact ⟨bs, t, h'.2⟩

end SubstringLemmas

/-! ## Observable events of a run -/

/-- One observable action of the program.  `gemini` is a `postToGemini`
POST, `probe` an `isAccessible` HEAD-style request, `fetch` a download
transfer by `downloadImage`, `gray` a `toGrayscale` attempt, `msg` an
error-stream message, `exitProc` a process termination via `exit`/`return`
from `main` with the given status. -/
inductive Act where
  | gemini : Act
  | probe (url : String) : Act
  | fetch (url : String) (file : String) : Act
  | gray (input output : String) : Act
  | msg (text : String) : Act
  | exitProc (code : Int) : Act
deriving DecidableEq, Repr

/-- Network actions (HTTP traffic), as opposed to local file work and
logging. -/
def Act.isNet : Act → Bool
  | gemini => true
  | probe _ => true
  | fetch _ _ => true
  | _ => false

/-- Does a trace contain a grayscale-conversion attempt? -/
def hasGray (l : List Act) : Bool :=
  l.any fun a =>
    match a with
    | Act.gray _ _ => true
    | _ => false

/-- Does a trace contain a process-terminating `exit` call? -/
def hasExit (l : List Act) : Bool :=
  l.any fun a =>
    match a with
    | Act.exitProc _ => true
    | _ => false

/-! ## The URL harvester -/

/-- Observable outcome of one generate→extract pass: the text extracted
from the generation response, the text extracted from the extraction
response, and the result of the liveness probe for each URL checked
during this pass.  This is the oracle for the network nondeterminism of
`postToGemini`/`extractTextFromGemini`/`isAccessible`. -/
structure PassData where
  genText : String
  urlsText : String
  accessible : String → Bool

/-- The accessibility-filter loop shared by all variants:
`for (url : candidates) if (isAccessible(url)) { push; if (size == target) break; }`,
starting from the already-accepted list `valid` and emitting a `probe`
event per checked URL.  `target` is the `(size_t)` image count. -/
def takeValidEv (a : String → Bool) (target : Nat) :
    List String → List String → List String × List Act
  | valid, [] => (valid, [])
  | valid, u :: rest =>
    if a u then
      let v2 := valid ++ [u]
      if v2.length = target then (v2, [Act.probe u])
      else
        let r := takeValidEv a target v2 rest
        (r.1, Act.probe u :: r.2)
    else
      let r := takeValidEv a target valid rest
      (r.1, Act.probe u :: r.2)

/-- `generateImageUrls` of `imageprocessing.cpp` (single pass): one
generation call; if the extracted text is empty return the empty list;
one extraction call; if empty return the empty list; otherwise filter the
lines containing `"http"` and keep the accessible ones, stopping once
`(size_t)numImages` URLs are accepted.  Returns the URL list and the
event trace. -/
def generateImageUrls (p : PassData) (numImages : Int) :
    List String × List Act :=
  if p.genText = "" then ([], [Act.gemini])
  else if p.urlsText = "" then ([], [Act.gemini, Act.gemini])
  else
    let r := takeValidEv p.accessible (sizeTOfInt numImages) [] (candidateLines p.urlsText)
    (r.1, Act.gemini :: Act.gemini :: r.2)

/-- One iteration body of the looping `generateImageUrls`
(`part_000`/`part_001`): two Gemini calls (the looping variants have no
emptiness early-returns), line split and `"http"` filter, then the
accessibility loop continuing from the accumulated list `acc`. -/
def passLoop (p : PassData) (target : Nat) (acc : List String) :
    List String × List Act :=
  let r := takeValidEv p.accessible target acc (candidateLines p.urlsText)
  (r.1, Act.gemini :: Act.gemini :: r.2)

/-- Fuel-indexed unfolding of the `while (image_urls.size() < (size_t)numimages)`
loop of the looping variants.  `o i` is the observable network data of
iteration `i`; `none` means the loop has not terminated within `fuel`
iterations (the source loop is unbounded). -/
def loopAux (o : Nat → PassData) (target : Nat) :
    Nat → Nat → List String → List Act → Option (List String × List Act)
  | 0, _, acc, evs => if target ≤ acc.length then some (acc, evs) else none
  | fuel + 1, i, acc, evs =>
    if target ≤ acc.length then some (acc, evs)
    else
      let st := passLoop (o i) target acc
      loopAux o target fuel (i + 1) st.1 (evs ++ st.2)

/-- `generateImageUrls` of `part_000`/`part_001`: run the loop from the
empty accepted list, with `(size_t)numimages` as the target. -/
def generateImageUrlsLoop (o : Nat → PassData) (numimages : Int) (fuel : Nat) :
    Option (List String × List Act) :=
  loopAux o (sizeTOfInt numimages) fuel 0 [] []

/-! ### Invariants of the accessibility-filter loop -/

/-- Once strictly below the target, the filter loop never accepts more
than `target` URLs (the `break` fires exactly when the count is reached). -/
theorem takeValidEv_length_le (a : String → Bool) (target : Nat) :
    ∀ (urls valid : List String), valid.length < target →
      ((takeValidEv a target valid urls).1).length ≤ target := by
  intro urls
  induction urls with
  | nil =>
    intro valid h
    exact Nat.le_of_lt h
  | cons u rest ih =>
    intro valid h
    by_cases ha : a u = true
    · by_cases hb : valid.length + 1 = target
      · simp [takeValidEv, ha, hb]
      · have hlt : (valid ++ [u]).length < target := by
          simp only [List.length_append, List.length_cons, List.length_nil]
          omega
        have h2 := ih (valid ++ [u]) hlt
        simpa [takeValidEv, ha, hb] using h2
    · simpa [takeValidEv, ha] using ih valid h

/-- Every URL accepted by the filter loop was already accepted before the
loop or passed the liveness probe. -/
theorem takeValidEv_mem (a : String → Bool) (target : Nat) :
    ∀ (urls valid : List String) (u : String),
      u ∈ (takeValidEv a target valid urls).1 → u ∈ valid ∨ a u = true := by
  intro urls
  induction urls with
  | nil =>
    intro valid u hu
    exact Or.inl hu
  | cons v rest ih =>
    intro valid u hu
    by_cases ha : a v = true
    · by_cases hb : valid.length + 1 = target
      · simp only [takeValidEv, ha, if_true] at hu
        rw [if_pos (by simpa using hb)] at hu
        rcases List.mem_append.mp hu with h | h
        · exact Or.inl h
        · right
          rcases List.mem_singleton.mp h with rfl
          exact ha
      · simp only [takeValidEv, ha, if_true] at hu
        rw [if_neg (by simpa using hb)] at hu
        rcases ih (valid ++ [v]) u hu with h | h
        · rcases List.mem_append.mp h with h2 | h2
          · exact Or.inl h2
          · right
            rcases List.mem_singleton.mp h2 with rfl
            exact ha
        · exact Or.inr h
    · simp only [takeValidEv, ha, if_false, Bool.false_eq_true] at hu
      exact ih valid u hu

/-- The filter loop only appends: the previously accepted list is a
prefix of its result. -/
theorem takeValidEv_extends (a : String → Bool) (target : Nat) :
    ∀ (urls valid : List String),
      ∃ rest, (takeValidEv a target valid urls).1 = valid ++ rest := by
  intro urls
  induction urls with
  | nil =>
    intro valid
    exact ⟨[], by simp [takeValidEv]⟩
  | cons u rest ih =>
    intro valid
    by_cases ha : a u = true
    · by_cases hb : valid.length + 1 = target
      · exact ⟨[u], by simp [takeValidEv, ha, hb]⟩
      · rcases ih (valid ++ [u]) with ⟨r, hr⟩
        refine ⟨[u] ++ r, ?_⟩
        have : (takeValidEv a target valid (u :: rest)).1
            = (takeValidEv a target (valid ++ [u]) rest).1 := by
          simp [takeValidEv, ha, hb]
        rw [this, hr, List.append_assoc]
    · rcases ih valid with ⟨r, hr⟩
      exact ⟨r, by simpa [takeValidEv, ha] using hr⟩

/-- When the target is out of reach (more candidates would be needed than
remain), the `break` never fires and the loop degenerates to a plain
filter by the liveness probe. -/
theorem takeValidEv_of_target_large (a : String → Bool) (target : Nat) :
    ∀ (urls valid : List String), valid.length + urls.length < target →
      (takeValidEv a target valid urls).1 = valid ++ urls.filter a := by
  intro urls
  induction urls with
  | nil =>
    intro valid _
    simp [takeValidEv]
  | cons u rest ih =>
    intro valid h
    simp only [List.length_cons] at h
    by_cases ha : a u = true
    · have hb : ¬ valid.length + 1 = target := by omega
      have hrec : (valid ++ [u]).length + rest.length < target := by
        simp only [List.length_append, List.length_cons, List.length_nil]
        omega
      have step : (takeValidEv a target valid (u :: rest)).1
          = (takeValidEv a target (valid ++ [u]) rest).1 := by
        simp [takeValidEv, ha, hb]
      rw [step, ih (valid ++ [u]) hrec, List.filter_cons_of_pos ha,
        List.append_assoc]
      rfl
    · have hrec : valid.length + rest.length < target := by omega
      have step : (takeValidEv a target valid (u :: rest)).1
          = (takeValidEv a target valid rest).1 := by
        simp [takeValidEv, ha]
      rw [step, ih valid hrec,
        List.filter_cons_of_neg (by simpa using ha)]

/-! ### Invariants of the while loop -/

/-- If the while loop terminates, the accepted list has exactly the target
length: the loop condition `size < target` fails only at `size = target`,
because the accepted count can never jump past the target. -/
theorem loopAux_length (o : Nat → PassData) (target : Nat) :
    ∀ (fuel i : Nat) (acc : List String) (evs : List Act) (r : List String × List Act),
      loopAux o target fuel i acc evs = some r → acc.length ≤ target →
      r.1.length = target := by
  intro fuel
  induction fuel with
  | zero =>
    intro i acc evs r hr hle
    by_cases hc : target ≤ acc.length
    · simp only [loopAux, hc, if_true, Option.some.injEq] at hr
      cases hr
      show acc.length = target
      omega
    · simp [loopAux, hc] at hr
  | succ f ih =>
    intro i acc evs r hr hle
    by_cases hc : target ≤ acc.length
    · simp only [loopAux, hc, if_true, Option.some.injEq] at hr
      cases hr
      show acc.length = target
      omega
    · simp only [loopAux, hc, if_false] at hr
      have hlt : acc.length < target := by omega
      have hpass : ((passLoop (o i) target acc).1).length ≤ target := by
        unfold passLoop
        exact takeValidEv_length_le _ _ _ _ hlt
      exact ih (i + 1) _ _ r hr hpass

/-- The while loop only appends to the accepted list: whatever was
accepted when an iteration started is an initial segment of the final
result (accumulation across iterations, no resets). -/
theorem loopAux_extends (o : Nat → PassData) (target : Nat) :
    ∀ (fuel i : Nat) (acc : List String) (evs : List Act) (r : List String × List Act),
      loopAux o target fuel i acc evs = some r →
      ∃ rest, r.1 = acc ++ rest := by
  intro fuel
  induction fuel with
  | zero =>
    intro i acc evs r hr
    by_cases hc : target ≤ acc.length
    · simp only [loopAux, hc, if_true, Option.some.injEq] at hr
      cases hr
      exact ⟨[], by simp⟩
    · simp [loopAux, hc] at hr
  | succ f ih =>
    intro i acc evs r hr
    by_cases hc : target ≤ acc.length
    · simp only [loopAux, hc, if_true, Option.some.injEq] at hr
      cases hr
      exact ⟨[], by simp⟩
    · simp only [loopAux, hc, if_false] at hr
      rcases ih (i + 1) _ _ r hr with ⟨r2, hr2⟩
      rcases takeValidEv_extends (o i).accessible target
        (candidateLines (o i).urlsText) acc with ⟨r1, hr1⟩
      refine ⟨r1 ++ r2, ?_⟩
      rw [hr2]
      unfold passLoop
      rw [hr1, List.append_assoc]

/-- Every URL in the final accepted list of the while loop passed the
liveness probe of one of the iterations. -/
theorem loopAux_accessible (o : Nat → PassData) (target : Nat) :
    ∀ (fuel i : Nat) (acc : List String) (evs : List Act) (r : List String × List Act),
      loopAux o target fuel i acc evs = some r →
      ∀ u ∈ r.1, u ∈ acc ∨ ∃ j, (o j).accessible u = true := by
  intro fuel
  induction fuel with
  | zero =>
    intro i acc evs r hr u hu
    by_cases hc : target ≤ acc.length
    · simp only [loopAux, hc, if_true, Option.some.injEq] at hr
      cases hr
      exact Or.inl hu
    · simp [loopAux, hc] at hr
  | succ f ih =>
    intro i acc evs r hr u hu
    by_cases hc : target ≤ acc.length
    · simp only [loopAux, hc, if_true, Option.some.injEq] at hr
      cases hr
      exact Or.inl hu
    · simp only [loopAux, hc, if_false] at hr
      rcases ih (i + 1) _ _ r hr u hu with h | h
      · unfold passLoop at h
        rcases takeValidEv_mem (o i).accessible target
          (candidateLines (o i).urlsText) acc u h with h2 | h2
        · exact Or.inl h2
        · exact Or.inr ⟨i, h2⟩
      · exact Or.inr h

/-- An oracle whose extraction phase never yields any text: no candidate
line ever appears. -/
def barrenOracle : Nat → PassData := fun _ =>
  { genText := "", urlsText := "", accessible := fun _ => false }

/-- Against `barrenOracle`, the while loop with any positive target never
terminates, whatever the iteration budget: the unbounded retry of the
looping variants. -/
theorem loopAux_barren_none :
    ∀ (fuel i : Nat) (evs : List Act),
      loopAux barrenOracle 1 fuel i [] evs = none := by
  intro fuel
  induction fuel with
  | zero =>
    intro i evs
    simp [loopAux]
  | succ f ih =>
    intro i evs
    have hp : (passLoop (barrenOracle i) 1 []).1 = [] := by
      unfold passLoop barrenOracle candidateLines cppGetlines
      simp [takeValidEv, getlinesAux]
    have hc : ¬ (1 ≤ ([] : List String).length) := by simp
    simp only [loopAux, hc, if_false]
    rw [hp]
    exact ih (i + 1) _

/-! ## Downloads and the per-item driver loop -/

/-- Outcome of one `downloadImage` call, as decided by the environment:
`fatalInit` — `curl_easy_init()` returned null; `fatalOpen` — `fopen`
of the target file failed; `transportFail` — the transfer ran and
`curl_easy_perform` returned an error; `ok` — the transfer succeeded. -/
inductive DlOutcome where
  | fatalInit : DlOutcome
  | fatalOpen : DlOutcome
  | transportFail : DlOutcome
  | ok : DlOutcome
deriving DecidableEq, Repr

/-- The outcomes on which the looping variants call `exit(1)` inside
`downloadImage`. -/
def DlOutcome.isFatal : DlOutcome → Bool
  | fatalInit => true
  | fatalOpen => true
  | _ => false

/-- Ordinal target path of item `i` (0-based index, 1-based filename):
`"images/" + std::to_string(i + 1) + ".jpg"`. -/
def imageFile (i : Nat) : String := "images/" ++ toString (i + 1) ++ ".jpg"

/-- Ordinal grayscale output path of item `i`:
`"gs-images/" + std::to_string(i + 1) + ".jpg"`. -/
def gsFile (i : Nat) : String := "gs-images/" ++ toString (i + 1) ++ ".jpg"

/-- Per-item actions of the `imageprocessing.cpp` driver: `downloadImage`
returns `false` without a transfer on curl-init or fopen failure and
`false` after a failed transfer; `toGrayscale` runs only when it returned
`true`. -/
def stepA (u : String) (i : Nat) : DlOutcome → List Act
  | DlOutcome.fatalInit => []
  | DlOutcome.fatalOpen => []
  | DlOutcome.transportFail => [Act.fetch u (imageFile i)]
  | DlOutcome.ok => [Act.fetch u (imageFile i), Act.gray (imageFile i) (gsFile i)]

/-- Per-item actions of the `part_000`/`part_001` driver for an outcome
that does not terminate the process: the transfer runs, and `toGrayscale`
is called afterwards whether or not `curl_easy_perform` succeeded. -/
def stepB (u : String) (i : Nat) (_o : DlOutcome) : List Act :=
  [Act.fetch u (imageFile i), Act.gray (imageFile i) (gsFile i)]

/-- Driver loop of `imageprocessing.cpp` over the accepted URLs paired
with their download outcomes: every item is processed, grayscale happens
only after a successful download, and `main` always returns 0 at the end. -/
def runA : List (String × DlOutcome) → Nat → Int × List Act
  | [], _ => (0, [])
  | (u, o) :: rest, i =>
    let r := runA rest (i + 1)
    (r.1, stepA u i o ++ r.2)

/-- Driver loop of `part_000`/`part_001`: on a fatal outcome
`downloadImage` calls `exit(1)` and nothing further runs; otherwise the
download call completes, `toGrayscale` is invoked unconditionally, and
the loop continues. -/
def runB : List (String × DlOutcome) → Nat → Int × List Act
  | [], _ => (0, [])
  | (u, o) :: rest, i =>
    if o.isFatal then (1, [Act.exitProc 1])
    else
      let r := runB rest (i + 1)
      (r.1, stepB u i o ++ r.2)

/-- Pair each accepted URL with the environment-decided outcome of its
`downloadImage` call (`dl i` is the outcome at 0-based position `i`). -/
def attachDl (dl : Nat → DlOutcome) : List String → Nat → List (String × DlOutcome)
  | [], _ => []
  | u :: t, i => (u, dl i) :: attachDl dl t (i + 1)

/-! ## The two `main` variants -/

/-- `main` of `imageprocessing.cpp`: no command-line arguments, the image
count is hardcoded to 2.  `keyFile` is the contents of `googleai.key`
when the file exists.  Returns the exit status and the event trace. -/
def mainSingle (keyFile : Option String) (p : PassData) (dl : Nat → DlOutcome) :
    Int × List Act :=
  match keyFile with
  | none => (1, [Act.msg "Missing googleai.key"])
  | some contents =>
    let _apiKey := readFirstLine contents
    let g := generateImageUrls p 2
    let d := runA (attachDl dl g.1 0) 0
    (d.1, g.2 ++ d.2)

/-- `main` of `part_000`/`part_001`: checks the key file, then requires
exactly one argument (`argc == 2`), converts it with `atoi`, harvests,
downloads and converts.  `args` is the full `argv` list (program name
included); `none` models a run still inside the unbounded harvester loop
after `fuel` iterations. -/
def mainLooping (keyFile : Option String) (args : List String)
    (o : Nat → PassData) (dl : Nat → DlOutcome) (fuel : Nat) :
    Option (Int × List Act) :=
  match keyFile with
  | none => some (1, [Act.msg "API key file is missing"])
  | some contents =>
    let _apiKey := readFirstLine contents
    if args.length = 2 then
      match generateImageUrlsLoop o (cppAtoi (args.getD 1 "")) fuel with
      | none => none
      | some g =>
        let d := runB (attachDl dl g.1 0) 0
        some (d.1, g.2 ++ d.2)
    else some (1, [Act.msg "Error: the number of images to process is missing."])

/-! ### Driver-loop lemmas -/

/-- The `imageprocessing.cpp` driver never terminates the process early:
its `main` reaches `return 0` and no `exit` call occurs in the loop. -/
theorem runA_no_exit : ∀ (l : List (String × DlOutcome)) (i : Nat),
    (runA l i).1 = 0 ∧ hasExit (runA l i).2 = false := by
  intro l
  induction l with
  | nil =>
    intro i
    constructor
    · rfl
    · rfl
  | cons x rest ih =>
    intro i
    rcases x with ⟨u, o⟩
    rcases ih (i + 1) with ⟨h1, h2⟩
    constructor
    · simpa [runA] using h1
    · simp only [runA, hasExit, List.any_append, Bool.or_eq_false_iff]
      refine ⟨?_, by simpa [hasExit] using h2⟩
      cases o <;> simp [stepA]

/-- In `imageprocessing.cpp`, the grayscale conversion of item `i` runs
iff the download of item `i` returned `true`. -/
theorem stepA_gray_iff (u : String) (i : Nat) (o : DlOutcome) :
    Act.gray (imageFile i) (gsFile i) ∈ stepA u i o ↔ o = DlOutcome.ok := by
  cases o <;> simp [stepA]

/-- In the looping variants a fatal `downloadImage` outcome aborts the
whole run: everything after the failing item is discarded. -/
theorem runB_fatal_cut (u : String) (o : DlOutcome) (ho : o.isFatal = true) :
    ∀ (pre post : List (String × DlOutcome)) (i : Nat),
      runB (pre ++ (u, o) :: post) i = runB (pre ++ [(u, o)]) i := by
  intro pre
  induction pre with
  | nil =>
    intro post i
    simp [runB, ho]
  | cons x rest ih =>
    intro post i
    rcases x with ⟨v, p⟩
    by_cases hp : p.isFatal = true
    · simp [runB, hp]
    · simp only [List.cons_append, runB, hp, Bool.false_eq_true, if_false,
        List.append_eq]
      rw [ih post (i + 1)]

/-! ## Grayscale conversion -/

/-- Modelled from the spec: `toGrayscale` delegates the pixel transform to
`cv::cvtColor(image, gray, cv::COLOR_BGR2GRAY)`, OpenCV library code that
is not part of this repository.  Per the spec (§4.5) it is the standard
BT.601 color-to-grayscale transform `Y = 0.299 R + 0.587 G + 0.114 B`,
computed by OpenCV in fixed point with coefficients `1868, 9617, 4899`
(summing to `2^14`) and round-half-up descaling. -/
def cvtPixelBGR2GRAY (b g r : Nat) : Nat :=
  (b * 1868 + g * 9617 + r * 4899 + 8192) / 16384

/-- Modelled from the spec: `cv::imread` with its default flag decodes any
image, a single-channel grayscale one included, into a 3-channel BGR
matrix; for a grayscale source every channel holds the same luma value. -/
def imreadGrayAsBGR (gray : List Nat) : List (Nat × Nat × Nat) :=
  gray.map fun v => (v, v, v)

/-- Pixel-level content of `toGrayscale`: convert every (B,G,R) pixel of
the decoded input to its luma value. -/
def toGrayscalePixels (img : List (Nat × Nat × Nat)) : List Nat :=
  img.map fun p => cvtPixelBGR2GRAY p.1 p.2.1 p.2.2

/-! ## Remaining helper lemmas -/

/-- `std::getline` keeps everything before the newline verbatim; the
newline itself is consumed and the characters after it are never read. -/
theorem takeUntilNl_append (line rest : List Char) (h : '\n' ∉ line) :
    takeUntilNl (line ++ '\n' :: rest) = line := by
  induction line with
  | nil => simp [takeUntilNl]
  | cons c t ih =>
    have hc : ¬ c = '\n' := fun hc => h (hc ▸ List.mem_cons_self c t)
    have ht : '\n' ∉ t := fun hm => h (List.mem_cons_of_mem c hm)
    simp [takeUntilNl, hc, ih ht]

/-- `digitsVal` leaves its accumulator alone when the input does not start
with a digit. -/
theorem digitsVal_no_digit (l : List Char) (h : ∀ c ∈ l, c.isDigit = false) :
    digitsVal l 0 = 0 := by
  cases l with
  | nil => rfl
  | cons c t =>
    have hc : c.isDigit = false := h c (List.mem_cons_self c t)
    simp [digitsVal, hc]

/-- `atoi` on a string containing no decimal digit at all evaluates to 0:
the conversion does not reject a non-numeric argument, it yields zero. -/
theorem cppAtoi_no_digit (s : String) (h : ∀ c ∈ s.data, c.isDigit = false) :
    cppAtoi s = 0 := by
  unfold cppAtoi atoiChars
  have hsub : ∀ c ∈ s.data.dropWhile isSpaceC, c.isDigit = false :=
    fun c hc => h c (List.dropWhile_sublist isSpaceC |>.mem hc)
  cases hd : s.data.dropWhile isSpaceC with
  | nil => simp [digitsVal]
  | cons c t =>
    have ht : ∀ x ∈ t, x.isDigit = false := by
      intro x hx
      exact hsub x (hd ▸ List.mem_cons_of_mem c hx)
    by_cases hm : c = '-'
    · subst hm
      simp [digitsVal_no_digit t ht]
    · by_cases hp : c = '+'
      · subst hp
        simp [digitsVal_no_digit t ht]
      · have hc : c.isDigit = false := hsub c (hd ▸ List.mem_cons_self c t)
        have : digitsVal (c :: t) 0 = 0 := by simp [digitsVal, hc]
        simp [hm, hp, this]

/-- The request URL built by `postToGemini` of `imageprocessing.cpp` and
of the looping variants (identical after macro expansion of
`GENAI_MODEL`): a fixed endpoint string ending in `?key=` followed by the
API key. -/
def geminiModelsEndpoint : String :=
  "https://generativelanguage.googleapis.com/v1beta/models/gemini-2.5-flash-lite:generateContent?key="

/-- `std::string url = "https://...?key=" + apiKey;` in `postToGemini`. -/
def postToGeminiUrl (apiKey : String) : String := geminiModelsEndpoint ++ apiKey

/-- A pass oracle for which one candidate line appears and every probe
succeeds; each iteration of the looping harvester re-accepts the same
URL. -/
def dupOracle : Nat → PassData := fun _ =>
  { genText := "x", urlsText := "http://a", accessible := fun _ => true }

/-- A single-pass oracle with one accessible candidate line. -/
def cexPass : PassData :=
  { genText := "x", urlsText := "http://a", accessible := fun _ => true }

/-- A single-pass oracle with two candidate lines of which exactly one is
accessible. -/
def negPass : PassData :=
  { genText := "x", urlsText := "http://a\nfoo\nhttp://b",
    accessible := fun u => u == "http://a" }

/-- An environment in which every download succeeds. -/
def constDl : Nat → DlOutcome := fun _ => DlOutcome.ok

/-- `sizeTOfInt` with the modulus written out as a numeral. -/
theorem sizeTOfInt_eq (n : Int) :
    sizeTOfInt n = (n % 18446744073709551616).toNat := by
  have h : (2:Int) ^ 64 = 18446744073709551616 := by norm_num
  rw [sizeTOfInt, h]

/-- For a nonnegative count within the C `int` range the `(size_t)` cast
is the identity. -/
theorem sizeTOfInt_of_nonneg (n : Int) (h0 : 0 ≤ n) (h1 : n < 2 ^ 31) :
    sizeTOfInt n = n.toNat := by
  rw [sizeTOfInt_eq]
  norm_num at h1
  omega

/-- If the target is already reached, the while loop exits at once with
the accumulated list, whatever the fuel. -/
theorem loopAux_target_le (o : Nat → PassData) (target : Nat) (fuel i : Nat)
    (acc : List String) (evs : List Act) (h : target ≤ acc.length) :
    loopAux o target fuel i acc evs = some (acc, evs) := by
  cases fuel <;> simp [loopAux, h]

/-! ## Claim theorems -/

/-- C3: for every line of the extraction-phase output, the filter of
`generateImageUrls` accepts the line as a candidate iff the line contains
`"http"` as a contiguous substring — no scheme parsing and no extension
check; in particular "See https://x.com/a.jpg" and "httpfoo" are
accepted and "no link here" is rejected, and the harvester keeps exactly
the lines passing this filter. -/
theorem C3_line_filter_iff_contains_http :
    (∀ l : String, lineHasHttp l = true ↔ ∃ s t, l.data = s ++ "http".data ++ t)
    ∧ (∀ urlsText : String,
        candidateLines urlsText = (cppGetlines urlsText).filter lineHasHttp)
    ∧ lineHasHttp "See https://x.com/a.jpg" = true
    ∧ lineHasHttp "httpfoo" = true
    ∧ lineHasHttp "no link here" = false := by
  refine ⟨fun l => hasSub_iff "http".data l.data, fun _ => rfl, ?_, ?_, ?_⟩
  · decide
  · decide
  · decide

/-- C8: grayscale conversion is idempotent — decoding an already
grayscale image (every BGR channel carries the same luma value) and
converting it again returns the identical pixel values, because the
fixed-point BT.601 coefficients sum to the descaling divisor. -/
theorem C8_grayscale_idempotent :
    ∀ gray : List Nat, toGrayscalePixels (imreadGrayAsBGR gray) = gray := by
  intro gray
  induction gray with
  | nil => rfl
  | cons v t ih =>
    have h : cvtPixelBGR2GRAY v v v = v := by
      unfold cvtPixelBGR2GRAY
      omega
    simp only [toGrayscalePixels, imreadGrayAsBGR, List.map_cons] at ih ⊢
    rw [h, ih]

/-- C6: with the credential file absent, both `main` variants print the
missing-key message and exit with status 1 before any network call: the
event trace contains no Gemini POST, no liveness probe and no download,
whatever the command line, the network oracle and the download
environment. -/
theorem C6_missing_credential_exits_1_no_network :
    (∀ (args : List String) (o : Nat → PassData) (dl : Nat → DlOutcome) (fuel : Nat),
        mainLooping none args o dl fuel
          = some (1, [Act.msg "API key file is missing"]))
    ∧ (∀ (args : List String) (o : Nat → PassData) (dl : Nat → DlOutcome) (fuel : Nat),
        ((mainLooping none args o dl fuel).map fun r => r.2.filter Act.isNet)
          = some [])
    ∧ (∀ (p : PassData) (dl : Nat → DlOutcome),
        mainSingle none p dl = (1, [Act.msg "Missing googleai.key"]))
    ∧ (∀ (p : PassData) (dl : Nat → DlOutcome),
        (mainSingle none p dl).2.filter Act.isNet = []) := by
  exact ⟨fun _ _ _ _ => rfl, fun _ _ _ _ => rfl, fun _ _ => rfl, fun _ _ => rfl⟩

/-- C7: reading the credential file `"ABC123\n"` with `std::getline`
yields `ABC123` without the trailing newline, so the generation request
URL carries the query parameter `key=ABC123` and no newline; any
whitespace on the credential line other than the newline is preserved
verbatim in the key. -/
theorem C7_api_key_query_param :
    readFirstLine "ABC123\n" = "ABC123"
    ∧ postToGeminiUrl (readFirstLine "ABC123\n")
        = geminiModelsEndpoint ++ "ABC123"
    ∧ hasSub "key=ABC123".data (postToGeminiUrl (readFirstLine "ABC123\n")).data
        = true
    ∧ '\n' ∉ (postToGeminiUrl (readFirstLine "ABC123\n")).data
    ∧ (∀ (line rest : List Char), '\n' ∉ line →
        takeUntilNl (line ++ '\n' :: rest) = line)
    ∧ readFirstLine "ABC123 \n" = "ABC123 " := by
  refine ⟨by decide, by decide, by decide, by decide,
    fun line rest h => takeUntilNl_append line rest h, by decide⟩

/-- C7 witness: the general getline statement applied to the line
`"ABC123 "` (trailing space, no newline) and an arbitrary tail. -/
theorem C7_api_key_query_param_witness :
    takeUntilNl ("ABC123 ".data ++ '\n' :: "tail".data) = "ABC123 ".data := by
  exact C7_api_key_query_param.2.2.2.2.1 "ABC123 ".data "tail".data (by decide)

/-- C1 (amended): every URL returned by either harvester passed the
liveness check at the moment it was checked; the returned list has at
most N URLs for every N ≥ 0 in the looping variant and for every N ≥ 1
in the single-pass variant — at N = 0 the single-pass variant instead
returns every candidate that passes the liveness check, because its
stop-at-count break only fires after a push. -/
theorem C1_harvester_amended :
    (∀ (p : PassData) (n : Int), 0 ≤ n →
        ∀ u ∈ (generateImageUrls p n).1, p.accessible u = true)
    ∧ (∀ (p : PassData) (n : Int), 1 ≤ n → n < 2 ^ 31 →
        ((generateImageUrls p n).1).length ≤ n.toNat)
    ∧ (∀ (o : Nat → PassData) (n : Int) (fuel : Nat) (r : List String × List Act),
        0 ≤ n → n < 2 ^ 31 → generateImageUrlsLoop o n fuel = some r →
        r.1.length ≤ n.toNat ∧ ∀ u ∈ r.1, ∃ j, (o j).accessible u = true) := by
  refine ⟨?_, ?_, ?_⟩
  · intro p n _ u hu
    unfold generateImageUrls at hu
    by_cases h1 : p.genText = ""
    · rw [if_pos h1] at hu
      simp at hu
    · by_cases h2 : p.urlsText = ""
      · rw [if_neg h1, if_pos h2] at hu
        simp at hu
      · rw [if_neg h1, if_neg h2] at hu
        replace hu : u ∈ (takeValidEv p.accessible (sizeTOfInt n) []
            (candidateLines p.urlsText)).1 := hu
        rcases takeValidEv_mem p.accessible (sizeTOfInt n)
          (candidateLines p.urlsText) [] u hu with h | h
        · simp at h
        · exact h
  · intro p n h1 h2
    have ht : sizeTOfInt n = n.toNat :=
      sizeTOfInt_of_nonneg n (le_trans (by norm_num) h1) h2
    have hpos : 0 < n.toNat := by omega
    unfold generateImageUrls
    by_cases hg : p.genText = ""
    · rw [if_pos hg]
      simp
    · by_cases hu : p.urlsText = ""
      · rw [if_neg hg, if_pos hu]
        simp
      · rw [if_neg hg, if_neg hu]
        have hb := takeValidEv_length_le p.accessible (sizeTOfInt n)
          (candidateLines p.urlsText) [] (by rw [ht]; simpa using hpos)
        show (takeValidEv p.accessible (sizeTOfInt n) []
          (candidateLines p.urlsText)).1.length ≤ n.toNat
        rw [ht] at hb ⊢
        exact hb
  · intro o n fuel r h0 h2 hr
    unfold generateImageUrlsLoop at hr
    constructor
    · have := loopAux_length o (sizeTOfInt n) fuel 0 [] [] r hr (by simp)
      rw [sizeTOfInt_of_nonneg n h0 h2] at this
      omega
    · intro u hu
      rcases loopAux_accessible o (sizeTOfInt n) fuel 0 [] [] r hr u hu with h | h
      · simp at h
      · exact h

/-- C1 counterexample: with requested count N = 0 and one accessible
candidate, the single-pass `generateImageUrls` of `imageprocessing.cpp`
returns one URL — more than N — because the `break` compares sizes only
after a push and `validUrls.size() == 0` never holds there. -/
theorem C1_counterexample :
    ¬ ((generateImageUrls cexPass 0).1.length ≤ (0 : Int).toNat) := by
  decide

/-- C1 witness: the amended statement applied to a concrete oracle at
counts 2 (single pass, both conjuncts) and 2 (looping variant). -/
theorem C1_harvester_amended_witness :
    (∀ u ∈ (generateImageUrls cexPass 2).1, cexPass.accessible u = true)
    ∧ ((generateImageUrls cexPass 2).1).length ≤ (2 : Int).toNat
    ∧ (["http://a", "http://a"] : List String).length ≤ (2 : Int).toNat := by
  refine ⟨C1_harvester_amended.1 cexPass 2 (by norm_num),
    C1_harvester_amended.2.1 cexPass 2 (by norm_num) (by norm_num), ?_⟩
  exact (C1_harvester_amended.2.2 dupOracle 2 2
    (["http://a", "http://a"],
      [Act.gemini, Act.gemini, Act.probe "http://a",
       Act.gemini, Act.gemini, Act.probe "http://a"])
    (by norm_num) (by norm_num) (by decide)).1

/-- C2: the looping harvester repeats the whole generate→extract→filter
cycle while the accepted total is short of the requested count: each
retry issues both Gemini calls afresh and continues filling the same
accumulated list (the list at the start of any iteration is an initial
segment of the final result); on termination the accepted total equals
the requested count exactly; there is no iteration cap — against an
oracle that never yields a candidate the loop runs forever — and no
deduplication: an oracle that repeats one accessible URL makes the
harvester return it twice, after two full two-call cycles. -/
theorem C2_loop_policy :
    (∀ (o : Nat → PassData) (n : Int) (fuel : Nat) (r : List String × List Act),
        0 ≤ n → n < 2 ^ 31 → generateImageUrlsLoop o n fuel = some r →
        r.1.length = n.toNat)
    ∧ (∀ (o : Nat → PassData) (target fuel i : Nat) (acc : List String)
        (evs : List Act) (r : List String × List Act),
        loopAux o target fuel i acc evs = some r → ∃ rest, r.1 = acc ++ rest)
    ∧ (∀ fuel : Nat, generateImageUrlsLoop barrenOracle 1 fuel = none)
    ∧ generateImageUrlsLoop dupOracle 2 2
        = some (["http://a", "http://a"],
            [Act.gemini, Act.gemini, Act.probe "http://a",
             Act.gemini, Act.gemini, Act.probe "http://a"]) := by
  refine ⟨?_, ?_, ?_, by decide⟩
  · intro o n fuel r h0 h2 hr
    unfold generateImageUrlsLoop at hr
    have := loopAux_length o (sizeTOfInt n) fuel 0 [] [] r hr (by simp)
    rw [sizeTOfInt_of_nonneg n h0 h2] at this
    exact this
  · intro o target fuel i acc evs r hr
    exact loopAux_extends o target fuel i acc evs r hr
  · intro fuel
    unfold generateImageUrlsLoop
    have h1 : sizeTOfInt 1 = 1 := by decide
    rw [h1]
    exact loopAux_barren_none fuel 0 []

/-- C2 witness: the stop and accumulation statements applied to the
duplicate-URL oracle at count 2 with fuel 2. -/
theorem C2_loop_policy_witness :
    (["http://a", "http://a"] : List String).length = (2 : Int).toNat
    ∧ ∃ rest, (["http://a", "http://a"] : List String) = [] ++ rest := by
  constructor
  · exact C2_loop_policy.1 dupOracle 2 2
      (["http://a", "http://a"],
        [Act.gemini, Act.gemini, Act.probe "http://a",
         Act.gemini, Act.gemini, Act.probe "http://a"])
      (by norm_num) (by norm_num) (by decide)
  · exact C2_loop_policy.2.1 dupOracle 2 2 0 [] []
      (["http://a", "http://a"],
        [Act.gemini, Act.gemini, Act.probe "http://a",
         Act.gemini, Act.gemini, Act.probe "http://a"])
      (by decide)

/-- C9: for a negative requested count the comparisons use the count cast
to `size_t`, i.e. the count plus `2^64`, an astronomically large bound
(at least `2^63` for any C `int`): in the single-pass variant the
stop-at-count break never fires, so with a nonempty generation text the
function returns exactly the candidates that pass the liveness check,
unbounded by the requested count; in the looping variants the while
condition keeps holding until the accepted list reaches at least `2^63`
entries. -/
theorem C9_negative_count_cast :
    (∀ n : Int, -(2 ^ 31) ≤ n → n < 0 → 2 ^ 63 ≤ sizeTOfInt n)
    ∧ (∀ (p : PassData) (n : Int), -(2 ^ 31) ≤ n → n < 0 →
        p.genText ≠ "" →
        (candidateLines p.urlsText).length < 2 ^ 63 →
        (generateImageUrls p n).1
          = (candidateLines p.urlsText).filter p.accessible)
    ∧ (∀ (o : Nat → PassData) (n : Int) (fuel : Nat) (r : List String × List Act),
        -(2 ^ 31) ≤ n → n < 0 → generateImageUrlsLoop o n fuel = some r →
        2 ^ 63 ≤ r.1.length) := by
  have hbound : ∀ n : Int, -(2 ^ 31) ≤ n → n < 0 →
      2 ^ 63 ≤ sizeTOfInt n := by
    intro n hlo hhi
    rw [sizeTOfInt_eq]
    have e31 : -(2 ^ 31 : Int) = -2147483648 := by norm_num
    have e63 : (2 ^ 63 : Nat) = 9223372036854775808 := by norm_num
    rw [e31] at hlo
    rw [e63]
    omega
  refine ⟨hbound, ?_, ?_⟩
  · intro p n hlo hhi hg hlen
    have ht : (candidateLines p.urlsText).length < sizeTOfInt n :=
      lt_of_lt_of_le hlen (hbound n hlo hhi)
    unfold generateImageUrls
    by_cases hu : p.urlsText = ""
    · rw [if_neg hg, if_pos hu]
      have : candidateLines p.urlsText = [] := by
        rw [hu]
        decide
      simp [this]
    · rw [if_neg hg, if_neg hu]
      show (takeValidEv p.accessible (sizeTOfInt n) []
          (candidateLines p.urlsText)).1
        = (candidateLines p.urlsText).filter p.accessible
      have := takeValidEv_of_target_large p.accessible (sizeTOfInt n)
        (candidateLines p.urlsText) [] (by simpa using ht)
      simpa using this
  · intro o n fuel r hlo hhi hr
    unfold generateImageUrlsLoop at hr
    have := loopAux_length o (sizeTOfInt n) fuel 0 [] [] r hr (by simp)
    rw [this]
    exact hbound n hlo hhi

/-- C9 witness: the cast bound and the filter degeneration applied at
count -1 with a two-candidate oracle of which one URL is accessible. -/
theorem C9_negative_count_cast_witness :
    2 ^ 63 ≤ sizeTOfInt (-1)
    ∧ (generateImageUrls negPass (-1)).1
        = (candidateLines negPass.urlsText).filter negPass.accessible := by
  constructor
  · exact C9_negative_count_cast.1 (-1) (by norm_num) (by norm_num)
  · exact C9_negative_count_cast.2.1 negPass (-1) (by norm_num) (by norm_num)
      (by decide) (by decide)

/-- C4 (amended): the variants agree on the per-item pipeline for a
successful download (fetch to the ordinal path, then grayscale to the
sibling ordinal path) and differ in failure handling: in
`imageprocessing.cpp` grayscale runs iff `downloadImage` returned true,
so a failed download skips that item; in `part_000`/`part_001` grayscale
is attempted unconditionally after every `downloadImage` call that
returns — including a failed transfer — but on curl-init or fopen
failure those variants terminate the process with `exit(1)` instead, so
no conversion happens there either. -/
theorem C4_variant_divergence_amended :
    (∀ (u : String) (i : Nat), stepA u i DlOutcome.ok = stepB u i DlOutcome.ok)
    ∧ (∀ (u : String) (i : Nat),
        stepA u i DlOutcome.transportFail = [Act.fetch u (imageFile i)]
        ∧ stepB u i DlOutcome.transportFail
            = [Act.fetch u (imageFile i), Act.gray (imageFile i) (gsFile i)])
    ∧ (∀ (u : String) (i : Nat) (o : DlOutcome),
        (Act.gray (imageFile i) (gsFile i) ∈ stepA u i o) ↔ o = DlOutcome.ok)
    ∧ (∀ (rest : List (String × DlOutcome)) (u : String) (o : DlOutcome) (i : Nat),
        o.isFatal = true →
        runB ((u, o) :: rest) i = (1, [Act.exitProc 1])
        ∧ hasGray (runB ((u, o) :: rest) i).2 = false) := by
  refine ⟨fun u i => rfl, fun u i => ⟨rfl, rfl⟩, ?_, ?_⟩
  · intro u i o
    exact stepA_gray_iff u i o
  · intro rest u o i ho
    have h : runB ((u, o) :: rest) i = (1, [Act.exitProc 1]) := by
      simp [runB, ho]
    exact ⟨h, by rw [h]; decide⟩

/-- C4 counterexample: with a failed file open the download did not
succeed, yet the looping variant attempts no grayscale conversion at all
— it terminates the whole process with status 1 — contradicting that
conversion is attempted unconditionally regardless of download outcome. -/
theorem C4_counterexample :
    hasGray (runB [("http://a", DlOutcome.fatalOpen)] 0).2 = false
    ∧ (runB [("http://a", DlOutcome.fatalOpen)] 0).1 = 1 := by
  decide

/-- C4 witness: the fatal-outcome conjunct applied to a one-item run with
a curl-init failure. -/
theorem C4_variant_divergence_amended_witness :
    runB [("http://a", DlOutcome.fatalInit)] 0 = (1, [Act.exitProc 1])
    ∧ hasGray (runB [("http://a", DlOutcome.fatalInit)] 0).2 = false := by
  exact C4_variant_divergence_amended.2.2.2 [] "http://a" DlOutcome.fatalInit 0
    (by decide)

/-- C5 (amended): with the credential file readable, a missing
command-line argument makes the looping variants exit with status 1 and
the usage message; a present but non-numeric argument is converted by
`atoi` to 0 rather than rejected, the run proceeds with count 0 — the
harvester loop body never executes — and the process then completes
normally with exit status 0, not a non-zero status. -/
theorem C5_argument_handling_amended :
    (∀ (key : String) (args : List String) (o : Nat → PassData)
        (dl : Nat → DlOutcome) (fuel : Nat), args.length ≠ 2 →
        mainLooping (some key) args o dl fuel
          = some (1, [Act.msg "Error: the number of images to process is missing."]))
    ∧ (∀ s : String, (∀ c ∈ s.data, c.isDigit = false) → cppAtoi s = 0)
    ∧ (∀ (key : String) (o : Nat → PassData) (dl : Nat → DlOutcome) (fuel : Nat),
        mainLooping (some key) ["imageprocessing", "abc"] o dl fuel
          = some (0, [])) := by
  refine ⟨?_, ?_, ?_⟩
  · intro key args o dl fuel h
    unfold mainLooping
    rw [if_neg h]
  · intro s h
    exact cppAtoi_no_digit s h
  · intro key o dl fuel
    have ha : cppAtoi ((["imageprocessing", "abc"] : List String).getD 1 "") = 0 := by
      decide
    have hg : generateImageUrlsLoop o 0 fuel = some ([], []) := by
      unfold generateImageUrlsLoop
      have h0 : sizeTOfInt 0 = 0 := by decide
      rw [h0]
      exact loopAux_target_le o 0 fuel 0 [] [] (by simp)
    unfold mainLooping
    rw [if_pos (by decide : (["imageprocessing", "abc"] : List String).length = 2),
      ha, hg]
    rfl

/-- C5 counterexample: the non-numeric argument "abc" does not produce a
non-zero exit status — the run completes with status 0. -/
theorem C5_counterexample :
    ((mainLooping (some "KEY") ["imageprocessing", "abc"] barrenOracle constDl 0).map
        Prod.fst) = some 0
    ∧ ¬ (∃ c : Int, c ≠ 0 ∧
        ((mainLooping (some "KEY") ["imageprocessing", "abc"] barrenOracle constDl 0).map
          Prod.fst) = some c) := by
  constructor
  · decide
  · rintro ⟨c, hc, h⟩
    have h0 : ((mainLooping (some "KEY") ["imageprocessing", "abc"] barrenOracle
        constDl 0).map Prod.fst) = some 0 := by decide
    rw [h0] at h
    exact hc (Option.some.injEq _ _ ▸ h).symm

/-- C5 witness: the missing-argument and non-numeric statements applied
at concrete inputs. -/
theorem C5_argument_handling_amended_witness :
    mainLooping (some "KEY") ["imageprocessing"] barrenOracle constDl 3
      = some (1, [Act.msg "Error: the number of images to process is missing."])
    ∧ cppAtoi "abc" = 0 := by
  constructor
  · exact C5_argument_handling_amended.1 "KEY" ["imageprocessing"] barrenOracle
      constDl 3 (by decide)
  · exact C5_argument_handling_amended.2.1 "abc" (by decide)

/-- C10: in the looping variants a curl-init or fopen failure inside
`downloadImage` terminates the whole process with exit status 1: nothing
after the failing item runs — the run over any list with a fatal item is
the run truncated at that item — and that item gets no conversion; the
single-pass variant instead logs, skips, continues, and never exits
early. -/
theorem C10_fatal_download_aborts_process :
    (∀ (u : String) (o : DlOutcome) (pre post : List (String × DlOutcome)) (i : Nat),
        o.isFatal = true →
        runB (pre ++ (u, o) :: post) i = runB (pre ++ [(u, o)]) i)
    ∧ (∀ (u : String) (o : DlOutcome) (rest : List (String × DlOutcome)) (i : Nat),
        o.isFatal = true →
        runB ((u, o) :: rest) i = (1, [Act.exitProc 1]))
    ∧ (∀ (l : List (String × DlOutcome)) (i : Nat),
        (runA l i).1 = 0 ∧ hasExit (runA l i).2 = false) := by
  refine ⟨?_, ?_, runA_no_exit⟩
  · intro u o pre post i ho
    exact runB_fatal_cut u o ho pre post i
  · intro u o rest i ho
    simp [runB, ho]

/-- C10 witness: a three-item run with a curl-init failure in the middle
equals the run truncated after that item, and a one-item fatal run exits
with status 1. -/
theorem C10_fatal_download_aborts_process_witness :
    runB ([("http://a", DlOutcome.ok)]
        ++ ("http://b", DlOutcome.fatalInit) :: [("http://c", DlOutcome.ok)]) 0
      = runB ([("http://a", DlOutcome.ok)] ++ [("http://b", DlOutcome.fatalInit)]) 0
    ∧ runB [("http://d", DlOutcome.fatalOpen)] 5 = (1, [Act.exitProc 1]) := by
  constructor
  · exact C10_fatal_download_aborts_process.1 "http://b" DlOutcome.fatalInit
      [("http://a", DlOutcome.ok)] [("http://c", DlOutcome.ok)] 0 (by decide)
  · exact C10_fatal_download_aborts_process.2.1 "http://d" DlOutcome.fatalOpen
      [] 5 (by decide)
